import Mathlib

/-!
Verification of the go-syncmap repository (package syncmap).

The repository provides a generic thread-safe map: `SyncMap[K, V]` in
src/syncmap.go holds a `sync.RWMutex` and a Go map `Data : map[K]V`, and a
locked view `lockedMap[K, V]` (src/unnamed/part_000) exposes the same
operations on the already-locked data without acquiring the lock.

Shallow embedding choices:
- A Go map value `map[K]V` is embedded as an association list `List (K × V)`
  whose keys are unique (the invariant `WF`); the built-in Go map operations
  `m[k]` (read), `m[k] = v` (write) and `delete(m, k)` become `mapLookup`,
  `mapInsert` and `eraseKey`.
- The Go idiom `v, ok := m[k]`, which yields the zero value of `V` when the
  key is absent, is embedded with an `Inhabited V` instance: `default` plays
  the role of the zero value.
- Mutation through the receiver pointer is embedded by state passing: a Go
  method that mutates `m.Data` returns the new `SyncMap`; a method that also
  returns a value returns a pair.
- The mutex field `Mu` and the lock/unlock calls have no sequential
  observable content and are not part of the embedding; each method body is
  translated minus its lock acquisition/release.
- `Range` calls a caller-supplied visitor for its side effects and returns
  nothing.  The embedding threads the visitor's state explicitly
  (`f : σ → K → V → Bool × σ`) and returns the list of entries the loop
  actually called the visitor on, which is the observable behaviour of the
  loop.
-/

set_option linter.unusedSectionVars false

variable {K V : Type} [DecidableEq K] [Inhabited V]

/-- Embedding of the Go map read `v, ok := data[k]`: the first entry with the
given key, if any. -/
def mapLookup : List (K × V) → K → Option V
  | [], _ => none
  | p :: rest, k => if p.1 = k then some p.2 else mapLookup rest k

/-- Embedding of the Go map write `data[k] = v`: replace the value of the
entry holding the key, or add the entry if the key is absent. -/
def mapInsert : List (K × V) → K → V → List (K × V)
  | [], k, v => [(k, v)]
  | p :: rest, k, v => if p.1 = k then (k, v) :: rest else p :: mapInsert rest k v

/-- Embedding of the Go map deletion `delete(data, k)`: drop the entries
holding the key. -/
def eraseKey : List (K × V) → K → List (K × V)
  | [], _ => []
  | p :: rest, k => if p.1 = k then eraseKey rest k else p :: eraseKey rest k

/-- SyncMap (src/syncmap.go lines 182-185), minus the mutex `Mu`, which has
no sequential observable content. -/
structure SyncMap (K V : Type) where
  Data : List (K × V)

/-- A well-formed `SyncMap` has unique keys, as every Go map does. -/
def SyncMap.WF (m : SyncMap K V) : Prop := (m.Data.map Prod.fst).Nodup

/-- New (src/syncmap.go lines 189-194): a fresh map; `size` is a capacity
hint with no semantic content. -/
def New (_size : Nat) : SyncMap K V := ⟨[]⟩

/-- SyncMap.Store (src/syncmap.go lines 198-203): `m.Data[k] = v`. -/
def SyncMap.Store (m : SyncMap K V) (k : K) (v : V) : SyncMap K V :=
  ⟨mapInsert m.Data k v⟩

/-- SyncMap.Load (src/syncmap.go lines 207-213): `v, ok := m.Data[k]`,
returning the zero value and false when absent. -/
def SyncMap.Load (m : SyncMap K V) (k : K) : V × Bool :=
  match mapLookup m.Data k with
  | some v => (v, true)
  | none => (default, false)

/-- SyncMap.Remove (src/syncmap.go lines 217-228): return false if the key is
absent, else delete it and return true.  The Bool result is paired with the
resulting map state. -/
def SyncMap.Remove (m : SyncMap K V) (k : K) : Bool × SyncMap K V :=
  if (mapLookup m.Data k).isSome then (true, ⟨eraseKey m.Data k⟩) else (false, m)

/-- SyncMap.Map (src/syncmap.go lines 232-243): build a fresh map holding
`mapFn k v` for every entry `(k, v)`; the receiver is not mutated. -/
def SyncMap.Map (m : SyncMap K V) (mapFn : K → V → V) : List (K × V) :=
  m.Data.map (fun p => (p.1, mapFn p.1 p.2))

/-- SyncMap.Filter (src/syncmap.go lines 247-260): build a fresh map holding
the entries satisfying the predicate; the receiver is not mutated. -/
def SyncMap.Filter (m : SyncMap K V) (predicateFn : K → V → Bool) : List (K × V) :=
  m.Data.filter (fun p => predicateFn p.1 p.2)

/-- SyncMap.Purge (src/syncmap.go lines 264-269): `m.Data = make(map[K]V)`. -/
def SyncMap.Purge (_m : SyncMap K V) : SyncMap K V :=
  ⟨[]⟩

/-- SyncMap.Len (src/syncmap.go lines 273-278): `len(m.Data)`. -/
def SyncMap.Len (m : SyncMap K V) : Nat :=
  m.Data.length

/-- SyncMap.LoadOrStore (src/syncmap.go lines 300-310): return the existing
value with true if present, else store and return the given value with
false.  The result pair is paired with the resulting map state. -/
def SyncMap.LoadOrStore (m : SyncMap K V) (key : K) (value : V) :
    (V × Bool) × SyncMap K V :=
  match mapLookup m.Data key with
  | some v => ((v, true), m)
  | none => ((value, false), ⟨mapInsert m.Data key value⟩)

/-- SyncMap.LoadAndDelete (src/syncmap.go lines 315-323): read the key, then
delete it if it was present; return the previous value and presence flag,
paired with the resulting map state. -/
def SyncMap.LoadAndDelete (m : SyncMap K V) (key : K) : (V × Bool) × SyncMap K V :=
  match mapLookup m.Data key with
  | some v => ((v, true), ⟨eraseKey m.Data key⟩)
  | none => ((default, false), m)

/-- The loop of SyncMap.Range (src/syncmap.go lines 331-335): call the
visitor on each entry in order and break as soon as it returns false.  The
visitor's state is threaded through `σ`; the result is the list of entries
the visitor was called on. -/
def SyncMap.rangeVisits {σ : Type} (f : σ → K → V → Bool × σ) :
    σ → List (K × V) → List (K × V)
  | _, [] => []
  | s, p :: rest =>
    if (f s p.1 p.2).1 then p :: SyncMap.rangeVisits f (f s p.1 p.2).2 rest else [p]

/-- SyncMap.Range (src/syncmap.go lines 328-336): run the visitor loop over
the map's entries.  The map itself is not mutated; the returned list records
which entries the visitor saw. -/
def SyncMap.Range {σ : Type} (m : SyncMap K V) (f : σ → K → V → Bool × σ) (s : σ) :
    List (K × V) :=
  SyncMap.rangeVisits f s m.Data

/-- lockedMap (src/unnamed/part_000 lines 61-63): the unexported locked view,
holding a reference to the SyncMap; embedded as a wrapper whose state-passing
operations return the updated wrapper. -/
structure lockedMap (K V : Type) where
  m : SyncMap K V

/-- lockedMap.Len (src/unnamed/part_000 lines 65-67): `len(lm.m.Data)`. -/
def lockedMap.Len (lm : lockedMap K V) : Nat :=
  lm.m.Data.length

/-- lockedMap.Load (src/unnamed/part_000 lines 69-72): `v, ok := lm.m.Data[key]`. -/
def lockedMap.Load (lm : lockedMap K V) (key : K) : V × Bool :=
  match mapLookup lm.m.Data key with
  | some v => (v, true)
  | none => (default, false)

/-- lockedMap.Store (src/unnamed/part_000 lines 74-76): `lm.m.Data[key] = value`. -/
def lockedMap.Store (lm : lockedMap K V) (key : K) (value : V) : lockedMap K V :=
  ⟨⟨mapInsert lm.m.Data key value⟩⟩

/-- lockedMap.LoadAndDelete (src/unnamed/part_000 lines 78-84). -/
def lockedMap.LoadAndDelete (lm : lockedMap K V) (key : K) :
    (V × Bool) × lockedMap K V :=
  match mapLookup lm.m.Data key with
  | some v => ((v, true), ⟨⟨eraseKey lm.m.Data key⟩⟩)
  | none => ((default, false), lm)

/-- The loop of lockedMap.Range (src/unnamed/part_000 lines 87-91), identical
in the source to the loop of SyncMap.Range but translated separately. -/
def lockedMap.rangeVisits {σ : Type} (f : σ → K → V → Bool × σ) :
    σ → List (K × V) → List (K × V)
  | _, [] => []
  | s, p :: rest =>
    if (f s p.1 p.2).1 then p :: lockedMap.rangeVisits f (f s p.1 p.2).2 rest else [p]

/-- lockedMap.Range (src/unnamed/part_000 lines 86-92). -/
def lockedMap.Range {σ : Type} (lm : lockedMap K V) (f : σ → K → V → Bool × σ) (s : σ) :
    List (K × V) :=
  lockedMap.rangeVisits f s lm.m.Data

/-- lockedMap.Purge (src/unnamed/part_000 lines 94-96): `lm.m.Data = make(map[K]V)`. -/
def lockedMap.Purge (_lm : lockedMap K V) : lockedMap K V :=
  ⟨⟨[]⟩⟩

/-- lockedMap.Remove (src/unnamed/part_000 lines 98-104). -/
def lockedMap.Remove (lm : lockedMap K V) (k : K) : Bool × lockedMap K V :=
  if (mapLookup lm.m.Data k).isSome then (true, ⟨⟨eraseKey lm.m.Data k⟩⟩)
  else (false, lm)

/-- lockedMap.LoadOrStore (src/unnamed/part_000 lines 106-114). -/
def lockedMap.LoadOrStore (lm : lockedMap K V) (key : K) (value : V) :
    (V × Bool) × lockedMap K V :=
  match mapLookup lm.m.Data key with
  | some v => ((v, true), lm)
  | none => ((value, false), ⟨⟨mapInsert lm.m.Data key value⟩⟩)

/-- lockedMap.Filter (src/unnamed/part_000 lines 116-126). -/
def lockedMap.Filter (lm : lockedMap K V) (predicateFn : K → V → Bool) :
    List (K × V) :=
  lm.m.Data.filter (fun p => predicateFn p.1 p.2)

/-- lockedMap.Map (src/unnamed/part_000 lines 128-136). -/
def lockedMap.Map (lm : lockedMap K V) (mapFn : K → V → V) : List (K × V) :=
  lm.m.Data.map (fun p => (p.1, mapFn p.1 p.2))

/-- SyncMap.DoLocked (src/syncmap.go lines 282-286): run the callback on a
locked view of the map; the callback's mutations through the view become the
new map state. -/
def SyncMap.DoLocked (m : SyncMap K V) (f : lockedMap K V → lockedMap K V) :
    SyncMap K V :=
  (f ⟨m⟩).m

/-- SyncMap.DoLockedWithResult (src/syncmap.go lines 290-294): run the
callback on a locked view of the map and return its result unchanged,
paired with the new map state. -/
def SyncMap.DoLockedWithResult {α : Type} (m : SyncMap K V)
    (f : lockedMap K V → α × lockedMap K V) : α × SyncMap K V :=
  ((f ⟨m⟩).1, (f ⟨m⟩).2.m)

/-!
Operation traces.  Claim C1 speaks about keys that were never stored, or whose
last store was followed by a removal; that is a statement about sequences of
mutating operations, embedded here as lists of `Op`.
-/

/-- A mutating operation of the public SyncMap API. -/
inductive Op (K V : Type) where
  | store (k : K) (v : V)
  | remove (k : K)
  | loadOrStore (k : K) (v : V)
  | loadAndDelete (k : K)
  | purge

/-- Run one mutating operation, keeping only the resulting map state. -/
def SyncMap.applyOp (m : SyncMap K V) : Op K V → SyncMap K V
  | .store k v => m.Store k v
  | .remove k => (m.Remove k).2
  | .loadOrStore k v => (m.LoadOrStore k v).2
  | .loadAndDelete k => (m.LoadAndDelete k).2
  | .purge => m.Purge

/-- Run a sequence of mutating operations. -/
def SyncMap.applyOps (m : SyncMap K V) (ops : List (Op K V)) : SyncMap K V :=
  ops.foldl SyncMap.applyOp m

/-- Whether an operation can store a value under the key `k`: `store` always
does, `loadOrStore` does when the key is absent; the others never add keys. -/
def Op.storesKey (k : K) : Op K V → Bool
  | .store k' _ => k' = k
  | .loadOrStore k' _ => k' = k
  | _ => false

/-!
Lemmas about the embedded Go map primitives.
-/

theorem mapLookup_mapInsert (l : List (K × V)) (k k' : K) (v : V) :
    mapLookup (mapInsert l k v) k' = if k = k' then some v else mapLookup l k' := by
  induction l with
  | nil => simp [mapInsert, mapLookup]
  | cons p rest ih =>
    by_cases hp : p.1 = k
    · have hpk : p.1 = k' ↔ k = k' := by rw [hp]
      by_cases hk : k = k'
      · simp [mapInsert, mapLookup, hp, hk]
      · simp [mapInsert, mapLookup, hp, hk, hpk]
    · by_cases hpk : p.1 = k'
      · have hk : ¬ k = k' := fun h => hp (by rw [h, hpk])
        have hk' : ¬ k' = k := fun h => hk h.symm
        simp [mapInsert, mapLookup, hp, hpk, hk, hk']
      · simp [mapInsert, mapLookup, hp, hpk, ih]

theorem mapLookup_eraseKey (l : List (K × V)) (k k' : K) :
    mapLookup (eraseKey l k) k' = if k = k' then none else mapLookup l k' := by
  induction l with
  | nil => simp [eraseKey, mapLookup]
  | cons p rest ih =>
    by_cases hp : p.1 = k
    · have hpk : p.1 = k' ↔ k = k' := by rw [hp]
      by_cases hk : k = k'
      · subst hk
        simp [eraseKey, mapLookup, hp, ih]
      · simp [eraseKey, mapLookup, hp, hk, hpk, ih]
    · by_cases hpk : p.1 = k'
      · have hk : ¬ k = k' := fun h => hp (by rw [h, hpk])
        have hk' : ¬ k' = k := fun h => hk h.symm
        simp [eraseKey, mapLookup, hp, hpk, hk, hk']
      · simp [eraseKey, mapLookup, hp, hpk, ih]

theorem load_of_lookup_none (m : SyncMap K V) (k : K)
    (h : mapLookup m.Data k = none) : m.Load k = (default, false) := by
  simp [SyncMap.Load, h]

theorem lookup_remove_self (m : SyncMap K V) (k : K) :
    mapLookup ((m.Remove k).2).Data k = none := by
  unfold SyncMap.Remove
  cases h : mapLookup m.Data k with
  | none => simp [h]
  | some v => simp [h, mapLookup_eraseKey]

theorem lookup_applyOp_none (m : SyncMap K V) (op : Op K V) (k : K)
    (hm : mapLookup m.Data k = none) (hop : op.storesKey k = false) :
    mapLookup (m.applyOp op).Data k = none := by
  cases op with
  | store k' v =>
    simp [Op.storesKey, decide_eq_false_iff_not] at hop
    simp [SyncMap.applyOp, SyncMap.Store, mapLookup_mapInsert, hop, hm]
  | remove k' =>
    unfold SyncMap.applyOp SyncMap.Remove
    cases h : mapLookup m.Data k' with
    | none => simpa [h] using hm
    | some v => simp [h, mapLookup_eraseKey, hm]
  | loadOrStore k' v =>
    simp [Op.storesKey, decide_eq_false_iff_not] at hop
    unfold SyncMap.applyOp SyncMap.LoadOrStore
    cases h : mapLookup m.Data k' with
    | none => simp [h, mapLookup_mapInsert, hop, hm]
    | some w => simpa [h] using hm
  | loadAndDelete k' =>
    unfold SyncMap.applyOp SyncMap.LoadAndDelete
    cases h : mapLookup m.Data k' with
    | none => simpa [h] using hm
    | some v => simp [h, mapLookup_eraseKey, hm]
  | purge => simp [SyncMap.applyOp, SyncMap.Purge, mapLookup]

theorem lookup_applyOps_none (m : SyncMap K V) (ops : List (Op K V)) (k : K)
    (hm : mapLookup m.Data k = none)
    (hops : ∀ op ∈ ops, op.storesKey k = false) :
    mapLookup (m.applyOps ops).Data k = none := by
  induction ops generalizing m with
  | nil => simpa [SyncMap.applyOps] using hm
  | cons op rest ih =>
    have h1 : mapLookup (m.applyOp op).Data k = none :=
      lookup_applyOp_none m op k hm (hops op (by simp))
    have := ih (m.applyOp op) h1 (fun o ho => hops o (by simp [ho]))
    simpa [SyncMap.applyOps] using this

/-!
Lemmas about the Range loop.
-/

theorem rangeVisits_all_true {σ : Type} (f : σ → K → V → Bool × σ) (s : σ)
    (l : List (K × V)) (hf : ∀ s k v, (f s k v).1 = true) :
    SyncMap.rangeVisits f s l = l := by
  induction l generalizing s with
  | nil => rfl
  | cons p rest ih => simp [SyncMap.rangeVisits, hf, ih]

theorem rangeVisits_length_le {σ : Type} (f : σ → K → V → Bool × σ) (s : σ)
    (l : List (K × V)) : (SyncMap.rangeVisits f s l).length ≤ l.length := by
  induction l generalizing s with
  | nil => simp [SyncMap.rangeVisits]
  | cons p rest ih =>
    by_cases h : (f s p.1 p.2).1
    · have := ih ((f s p.1 p.2).2)
      simp only [SyncMap.rangeVisits, h, if_true, List.length_cons]
      omega
    · simp [SyncMap.rangeVisits, h]

/-- A visitor that keeps its own call counter and signals stop on its N-th
call: it continues exactly while fewer than N calls have completed. -/
def countVisitor (N : Nat) : Nat → K → V → Bool × Nat :=
  fun n _ _ => (decide (n + 1 < N), n + 1)

theorem rangeVisits_countVisitor_le (N : Nat) (l : List (K × V)) :
    ∀ n, n < N → (SyncMap.rangeVisits (countVisitor N) n l).length ≤ N - n := by
  induction l with
  | nil =>
    intro n _
    simp [SyncMap.rangeVisits]
  | cons p rest ih =>
    intro n hn
    by_cases h : n + 1 < N
    · have := ih (n + 1) h
      simp [SyncMap.rangeVisits, countVisitor, h]
      omega
    · simp [SyncMap.rangeVisits, countVisitor, h]
      omega

theorem lockedMap_rangeVisits_eq {σ : Type} (f : σ → K → V → Bool × σ) (s : σ)
    (l : List (K × V)) :
    lockedMap.rangeVisits f s l = SyncMap.rangeVisits f s l := by
  induction l generalizing s with
  | nil => rfl
  | cons p rest ih => simp [lockedMap.rangeVisits, SyncMap.rangeVisits, ih]

/-!
Lemmas about Map.
-/

theorem mapLookup_map (l : List (K × V)) (f : K → V → V) (k : K) :
    mapLookup (l.map (fun p => (p.1, f p.1 p.2))) k = (mapLookup l k).map (f k) := by
  induction l with
  | nil => rfl
  | cons p rest ih =>
    by_cases hp : p.1 = k
    · simp [mapLookup, hp]
    · simp [mapLookup, hp, ih]

theorem mapFn_keys_eq (l : List (K × V)) (f : K → V → V) :
    (l.map (fun p => (p.1, f p.1 p.2))).map Prod.fst = l.map Prod.fst := by
  induction l with
  | nil => rfl
  | cons p rest ih => simp [ih]

/-!
Claim theorems.
-/

/-- Claim C1: for every key k and value v, Store(k, v) followed by Load(k)
returns (v, true); a key never stored over any run of mutating operations
from a fresh map, or one whose removal is followed only by operations that do
not store it, loads as the zero value together with false. -/
theorem SyncMap.store_load_spec :
    (∀ (m : SyncMap K V) (k : K) (v : V), (m.Store k v).Load k = (v, true)) ∧
    (∀ (size : Nat) (ops : List (Op K V)) (k : K),
      (∀ op ∈ ops, op.storesKey k = false) →
      ((New size).applyOps ops).Load k = (default, false)) ∧
    (∀ (m : SyncMap K V) (ops : List (Op K V)) (k : K),
      (∀ op ∈ ops, op.storesKey k = false) →
      (((m.Remove k).2).applyOps ops).Load k = (default, false)) := by
  refine ⟨?_, ?_, ?_⟩
  · intro m k v
    simp [SyncMap.Store, SyncMap.Load, mapLookup_mapInsert]
  · intro size ops k hops
    exact load_of_lookup_none _ _ (lookup_applyOps_none _ _ _ rfl hops)
  · intro m ops k hops
    exact load_of_lookup_none _ _
      (lookup_applyOps_none _ _ _ (lookup_remove_self m k) hops)

/-- Witness for C1 at concrete inputs. -/
theorem SyncMap.store_load_spec_witness :
    ((New 5 : SyncMap Nat Nat).Store 1 7).Load 1 = (7, true) ∧
    ((New 5 : SyncMap Nat Nat).applyOps [Op.store 2 9, Op.remove 2]).Load 1 =
      (0, false) ∧
    ((((New 5 : SyncMap Nat Nat).Store 1 7).Remove 1).2.applyOps
      [Op.loadAndDelete 3]).Load 1 = (0, false) := by
  refine ⟨SyncMap.store_load_spec.1 (New 5) 1 7, ?_, ?_⟩
  · exact SyncMap.store_load_spec.2.1 5 [Op.store 2 9, Op.remove 2] 1 (by decide)
  · exact SyncMap.store_load_spec.2.2 ((New 5).Store 1 7) [Op.loadAndDelete 3] 1
      (by decide)

/-- Claim C2: every lockedMap operation (Load, Store, LoadOrStore,
LoadAndDelete, Remove, Purge, Range, Filter, Map, Len) produces the same
result and the same change to the mapping as the SyncMap method of the same
name on the same map state. -/
theorem lockedMap_refines_SyncMap {σ : Type} :
    (∀ (lm : lockedMap K V) (k : K), lm.Load k = lm.m.Load k) ∧
    (∀ (lm : lockedMap K V) (k : K) (v : V), (lm.Store k v).m = lm.m.Store k v) ∧
    (∀ (lm : lockedMap K V) (k : K) (v : V),
      (lm.LoadOrStore k v).1 = (lm.m.LoadOrStore k v).1 ∧
      (lm.LoadOrStore k v).2.m = (lm.m.LoadOrStore k v).2) ∧
    (∀ (lm : lockedMap K V) (k : K),
      (lm.LoadAndDelete k).1 = (lm.m.LoadAndDelete k).1 ∧
      (lm.LoadAndDelete k).2.m = (lm.m.LoadAndDelete k).2) ∧
    (∀ (lm : lockedMap K V) (k : K),
      (lm.Remove k).1 = (lm.m.Remove k).1 ∧
      (lm.Remove k).2.m = (lm.m.Remove k).2) ∧
    (∀ lm : lockedMap K V, lm.Purge.m = lm.m.Purge) ∧
    (∀ (lm : lockedMap K V) (f : σ → K → V → Bool × σ) (s : σ),
      lm.Range f s = lm.m.Range f s) ∧
    (∀ (lm : lockedMap K V) (p : K → V → Bool), lm.Filter p = lm.m.Filter p) ∧
    (∀ (lm : lockedMap K V) (g : K → V → V), lm.Map g = lm.m.Map g) ∧
    (∀ lm : lockedMap K V, lm.Len = lm.m.Len) := by
  refine ⟨fun lm k => rfl, fun lm k v => rfl, ?_, ?_, ?_, fun lm => rfl, ?_,
    fun lm p => rfl, fun lm g => rfl, fun lm => rfl⟩
  · intro lm k v
    unfold lockedMap.LoadOrStore SyncMap.LoadOrStore
    cases mapLookup lm.m.Data k <;> simp
  · intro lm k
    unfold lockedMap.LoadAndDelete SyncMap.LoadAndDelete
    cases mapLookup lm.m.Data k <;> simp
  · intro lm k
    unfold lockedMap.Remove SyncMap.Remove
    by_cases h : (mapLookup lm.m.Data k).isSome <;> simp [h]
  · intro lm f s
    exact lockedMap_rangeVisits_eq f s lm.m.Data

/-- Claim C3: DoLockedWithResult returns the callback's value unchanged, the
callback's mutations through the locked view become the map's new state, and
in particular a callback that stores two distinct keys makes both visible to
subsequent Loads. -/
theorem SyncMap.doLockedWithResult_spec {α : Type} (m : SyncMap K V)
    (f : lockedMap K V → α × lockedMap K V) (k1 k2 : K) (v1 v2 : V)
    (hk : k1 ≠ k2) :
    (m.DoLockedWithResult f).1 = (f ⟨m⟩).1 ∧
    (m.DoLockedWithResult f).2 = ((f ⟨m⟩).2).m ∧
    (m.DoLockedWithResult (fun lm => ((), (lm.Store k1 v1).Store k2 v2))).2.Load k1 =
      (v1, true) ∧
    (m.DoLockedWithResult (fun lm => ((), (lm.Store k1 v1).Store k2 v2))).2.Load k2 =
      (v2, true) := by
  have hne : ¬ k2 = k1 := fun h => hk h.symm
  refine ⟨rfl, rfl, ?_, ?_⟩
  · simp [SyncMap.DoLockedWithResult, lockedMap.Store, SyncMap.Load,
      mapLookup_mapInsert, hne]
  · simp [SyncMap.DoLockedWithResult, lockedMap.Store, SyncMap.Load,
      mapLookup_mapInsert]

/-- Witness for C3 at concrete inputs. -/
theorem SyncMap.doLockedWithResult_spec_witness :
    ((⟨[]⟩ : SyncMap Nat Nat).DoLockedWithResult (fun lm => (lm.Len, lm))).1 = 0 ∧
    ((⟨[]⟩ : SyncMap Nat Nat).DoLockedWithResult
      (fun lm => ((), (lm.Store 1 7).Store 2 9))).2.Load 1 = (7, true) ∧
    ((⟨[]⟩ : SyncMap Nat Nat).DoLockedWithResult
      (fun lm => ((), (lm.Store 1 7).Store 2 9))).2.Load 2 = (9, true) := by
  have h := SyncMap.doLockedWithResult_spec (⟨[]⟩ : SyncMap Nat Nat)
    (fun lm => (lm.Len, lm)) 1 2 7 9 (by decide)
  exact ⟨h.1.trans rfl, h.2.2.1, h.2.2.2⟩

/-- Claim C5: LoadOrStore on an absent key stores the given value and returns
it with false; on a present key it returns the existing value with true and
leaves the map unchanged, so a later Load still yields the first value. -/
theorem SyncMap.loadOrStore_spec (m : SyncMap K V) (k : K) (v1 v2 v : V) :
    (mapLookup m.Data k = none →
      (m.LoadOrStore k v1).1 = (v1, false) ∧
      ((m.LoadOrStore k v1).2).Load k = (v1, true)) ∧
    (mapLookup m.Data k = some v →
      (m.LoadOrStore k v2).1 = (v, true) ∧
      (m.LoadOrStore k v2).2 = m ∧
      ((m.LoadOrStore k v2).2).Load k = (v, true)) := by
  constructor
  · intro h
    simp [SyncMap.LoadOrStore, h, SyncMap.Load, mapLookup_mapInsert]
  · intro h
    simp [SyncMap.LoadOrStore, h, SyncMap.Load]

/-- Witness for C5 at concrete inputs. -/
theorem SyncMap.loadOrStore_spec_witness :
    ((⟨[(2, 5)]⟩ : SyncMap Nat Nat).LoadOrStore 1 7).1 = (7, false) ∧
    (((⟨[(2, 5)]⟩ : SyncMap Nat Nat).LoadOrStore 1 7).2).Load 1 = (7, true) ∧
    ((⟨[(2, 5)]⟩ : SyncMap Nat Nat).LoadOrStore 2 9).1 = (5, true) ∧
    ((⟨[(2, 5)]⟩ : SyncMap Nat Nat).LoadOrStore 2 9).2 = ⟨[(2, 5)]⟩ := by
  have ha := (SyncMap.loadOrStore_spec (⟨[(2, 5)]⟩ : SyncMap Nat Nat) 1 7 7 5).1 rfl
  have hb := (SyncMap.loadOrStore_spec (⟨[(2, 5)]⟩ : SyncMap Nat Nat) 2 7 9 5).2 rfl
  exact ⟨ha.1, ha.2, hb.1, hb.2.1⟩

/-- Claim C6: LoadAndDelete(k) returns exactly what Load(k) returns, leaves
the map in exactly the state Remove(k) leaves it in, and the key is absent
afterwards; on an absent key this means (zero, false) with the map
unchanged. -/
theorem SyncMap.loadAndDelete_spec (m : SyncMap K V) (k : K) :
    (m.LoadAndDelete k).1 = m.Load k ∧
    (m.LoadAndDelete k).2 = (m.Remove k).2 ∧
    ((m.LoadAndDelete k).2).Load k = (default, false) := by
  cases h : mapLookup m.Data k with
  | some v =>
    refine ⟨?_, ?_, ?_⟩ <;>
      simp [SyncMap.LoadAndDelete, SyncMap.Load, SyncMap.Remove, h,
        mapLookup_eraseKey]
  | none =>
    refine ⟨?_, ?_, ?_⟩ <;>
      simp [SyncMap.LoadAndDelete, SyncMap.Load, SyncMap.Remove, h]

/-- Claim C7: Map(f) returns a fresh mapping with exactly one entry
(k, f(k, v)) per original entry (k, v) and no others: the key list is
unchanged, each lookup is the transformed original value, and the result has
no duplicate keys; the receiving map is a pure input of this function and is
not mutated. -/
theorem SyncMap.map_spec (m : SyncMap K V) (mapFn : K → V → V) (h : m.WF) :
    (m.Map mapFn).map Prod.fst = m.Data.map Prod.fst ∧
    (∀ k, mapLookup (m.Map mapFn) k = (mapLookup m.Data k).map (mapFn k)) ∧
    ((m.Map mapFn).map Prod.fst).Nodup := by
  refine ⟨mapFn_keys_eq m.Data mapFn, fun k => mapLookup_map m.Data mapFn k, ?_⟩
  have hkeys : (m.Map mapFn).map Prod.fst = m.Data.map Prod.fst :=
    mapFn_keys_eq m.Data mapFn
  rw [hkeys]
  exact h

/-- Witness for C7 at concrete inputs. -/
theorem SyncMap.map_spec_witness :
    ((⟨[(1, 2), (3, 4)]⟩ : SyncMap Nat Nat).Map (fun _ v => v * 10)).map
      Prod.fst = [1, 3] ∧
    mapLookup ((⟨[(1, 2), (3, 4)]⟩ : SyncMap Nat Nat).Map (fun _ v => v * 10)) 3 =
      some 40 ∧
    (((⟨[(1, 2), (3, 4)]⟩ : SyncMap Nat Nat).Map (fun _ v => v * 10)).map
      Prod.fst).Nodup := by
  have h := SyncMap.map_spec (⟨[(1, 2), (3, 4)]⟩ : SyncMap Nat Nat)
    (fun _ v => v * 10) (by unfold SyncMap.WF; decide)
  exact ⟨h.1.trans (by decide), (h.2.1 3).trans (by decide), h.2.2⟩

/-- Claim C8: a visitor that always continues makes Range visit every entry
exactly once (the visit list is the whole entry list); a counting visitor
that stops on its N-th call makes Range visit at most N entries; and no
visitor ever makes Range visit more entries than the map holds. -/
theorem SyncMap.range_spec {σ : Type} (m : SyncMap K V) :
    (∀ (f : σ → K → V → Bool × σ) (s : σ),
      (∀ s k v, (f s k v).1 = true) → m.Range f s = m.Data) ∧
    (∀ N : Nat, 0 < N → (m.Range (countVisitor N) 0).length ≤ N) ∧
    (∀ (f : σ → K → V → Bool × σ) (s : σ), (m.Range f s).length ≤ m.Len) := by
  refine ⟨?_, ?_, ?_⟩
  · intro f s hf
    exact rangeVisits_all_true f s m.Data hf
  · intro N hN
    have h := rangeVisits_countVisitor_le N m.Data 0 hN
    simpa [SyncMap.Range] using h
  · intro f s
    exact rangeVisits_length_le f s m.Data

/-- Witness for C8 at concrete inputs. -/
theorem SyncMap.range_spec_witness :
    (⟨[(1, 2), (3, 4)]⟩ : SyncMap Nat Nat).Range
      (fun (s : Unit) _ _ => (true, s)) () = [(1, 2), (3, 4)] ∧
    ((⟨[(1, 2), (3, 4)]⟩ : SyncMap Nat Nat).Range (countVisitor 1) 0).length ≤ 1 ∧
    ((⟨[(1, 2), (3, 4)]⟩ : SyncMap Nat Nat).Range
      (fun (s : Unit) _ _ => (false, s)) ()).length ≤
      (⟨[(1, 2), (3, 4)]⟩ : SyncMap Nat Nat).Len := by
  have h := SyncMap.range_spec (σ := Unit) (⟨[(1, 2), (3, 4)]⟩ : SyncMap Nat Nat)
  exact ⟨h.1 _ () (fun _ _ _ => rfl), h.2.1 1 (by decide), h.2.2 _ ()⟩

/-- Claim C9: Purge empties the mapping: afterwards Len is 0 and every Load
misses; Purge on an already-empty map is a no-op returning the identical
state; the map state holds nothing but the mapping, so nothing else can
change. -/
theorem SyncMap.purge_spec (m : SyncMap K V) :
    m.Purge.Len = 0 ∧
    (∀ k, m.Purge.Load k = (default, false)) ∧
    (m.Len = 0 → m.Purge = m) := by
  refine ⟨rfl, fun k => rfl, ?_⟩
  intro h
  cases m with
  | mk data =>
    cases data with
    | nil => rfl
    | cons p rest => simp [SyncMap.Len] at h

/-- Witness for C9 at concrete inputs. -/
theorem SyncMap.purge_spec_witness :
    (⟨[(1, 2)]⟩ : SyncMap Nat Nat).Purge.Len = 0 ∧
    (⟨[(1, 2)]⟩ : SyncMap Nat Nat).Purge.Load 1 = (0, false) ∧
    (⟨[]⟩ : SyncMap Nat Nat).Purge = (⟨[]⟩ : SyncMap Nat Nat) := by
  have h1 := SyncMap.purge_spec (⟨[(1, 2)]⟩ : SyncMap Nat Nat)
  have h2 := SyncMap.purge_spec (⟨[]⟩ : SyncMap Nat Nat)
  exact ⟨h1.1, h1.2.1 1, h2.2.2 rfl⟩
